import Mathlib

/-
Verification development for the djinn distributed ABM engine
(src/src/compute.rs, src/src/hash.rs, src/src/ser.rs, src/src/sim.rs).

The Redis-backed coordination core is shallowly embedded: the store is a
record of the Redis keys the engine uses (sets as deduplicated lists,
key/value pairs as association lists, Redis lists as Lean lists with LPUSH
prepend semantics), and each Rust method becomes a Lean function on that
record. Store operations that panic in Rust (unwrap on a decode of a nil
reply) are modelled with Except, where an error value stands for the panic.
Agent ids are modelled as natural numbers, matching the u64 id of
src/src/sim.rs. The msgpack byte codec used at the store boundary is
modelled separately (see the MsgPack section); since it is proved to be a
round-trip injection, the store model holds decoded values directly.
-/

namespace Djinn

abbrev Id := Nat

/-- Agent from src/src/sim.rs: a unique id and a state. -/
structure Agent (St : Type) where
  id : Id
  state : St
deriving DecidableEq, Repr

/-- PopulationUpdate from src/src/compute.rs: a queued spawn or kill. -/
inductive PopUpd (St : Type) where
| spawn (id : Id) (state : St)
| kill (id : Id) (state : St)
deriving DecidableEq, Repr

/-- The keys that per-target update lists live under: updates:<id> for an
agent, updates:world for the world. -/
inductive UKey where
| agent (id : Id)
| world
deriving DecidableEq, Repr

/-- Redis SADD of one member: sets are deduplicated lists. -/
def saddOne [DecidableEq a] (s : List a) (x : a) : List a :=
  if x ∈ s then s else s ++ [x]

/-- Redis SADD of a batch of members. -/
def saddList [DecidableEq a] (s : List a) (xs : List a) : List a :=
  xs.foldl saddOne s

/-- Redis SREM of a batch of members. -/
def sremList [DecidableEq a] (s : List a) (xs : List a) : List a :=
  s.filter (fun y => decide (y ∉ xs))

/-- Redis SET on a key/value table (replace or append). -/
def kvSet [DecidableEq k] : List (k × v) → k → v → List (k × v)
| [], key, val => [(key, val)]
| p :: rest, key, val =>
  if p.1 = key then (key, val) :: rest else p :: kvSet rest key val

/-- Redis GET on a key/value table. -/
def kvGet [DecidableEq k] : List (k × v) → k → Option v
| [], _ => none
| p :: rest, key => if p.1 = key then some p.2 else kvGet rest key

/-- Redis DEL of a batch of keys. -/
def kvDelAll [DecidableEq k] (m : List (k × v)) (keys : List k) : List (k × v) :=
  m.filter (fun p => decide (p.1 ∉ keys))

/-- Redis LPUSH of a batch on a table of lists: LPUSH key v1 .. vn leaves
the list vn, .., v1 followed by the old contents. -/
def kvLpush [DecidableEq k] : List (k × List v) → k → List v → List (k × List v)
| [], key, vs => [(key, vs.reverse)]
| p :: rest, key, vs =>
  if p.1 = key then (key, vs.reverse ++ p.2) :: rest else p :: kvLpush rest key vs

/-- The coordinator store: every Redis key the engine core touches.
population is the {pop}population set; states holds the per-id state keys;
updLists holds the updates:<id> and updates:world lists; popUpdates is the
{pop}updates set of pending population mutations; toDecide and toUpdate are
the {pop}to_decide and {pop}to_update sets. log is ghost instrumentation
recording each on_spawns / on_deaths hook invocation made by the population
in application order. -/
structure Store (St Upd Wo : Type) where
  population : List Id
  states : List (Id × St)
  updLists : List (UKey × List Upd)
  popUpdates : List (PopUpd St)
  toDecide : List Id
  toUpdate : List Id
  world : Wo
  log : List (PopUpd St)
deriving DecidableEq, Repr

/-- A freshly reset store (Manager::new runs Population::reset and
set_world). -/
def Store.init (w : Wo) : Store St Upd Wo :=
  ⟨[], [], [], [], [], [], w, []⟩

/-- Updates from src/src/compute.rs: the per-caller staging buffer.
updates maps a target key to the queued encoded updates in insertion
order; pop_updates is the staged population mutations; to_update is the
staged set of ids that received updates. -/
structure UpdatesBuf (St Upd : Type) where
  updates : List (UKey × List Upd)
  pop_updates : List (PopUpd St)
  to_update : List Id
deriving DecidableEq, Repr

/-- Updates::new. -/
def UpdatesBuf.new : UpdatesBuf St Upd := ⟨[], [], []⟩

/-- Updates::queue: append the update under updates:<id> and record the id
in the to_update staging set. -/
def UpdatesBuf.queue (b : UpdatesBuf St Upd) (id : Id) (u : Upd) : UpdatesBuf St Upd :=
  { b with
    updates :=
      match kvGet b.updates (UKey.agent id) with
      | some us => kvSet b.updates (UKey.agent id) (us ++ [u])
      | none => kvSet b.updates (UKey.agent id) [u],
    to_update := saddOne b.to_update id }

/-- Updates::queue_world: append the update under updates:world. -/
def UpdatesBuf.queue_world (b : UpdatesBuf St Upd) (u : Upd) : UpdatesBuf St Upd :=
  { b with
    updates :=
      match kvGet b.updates UKey.world with
      | some us => kvSet b.updates UKey.world (us ++ [u])
      | none => kvSet b.updates UKey.world [u] }

/-- Updates::spawn: queue a Spawn mutation. The Rust code draws the fresh
id from a random uuid; the model takes the drawn id as a parameter. -/
def UpdatesBuf.spawnWith (b : UpdatesBuf St Upd) (id : Id) (st : St) : UpdatesBuf St Upd :=
  { b with pop_updates := b.pop_updates ++ [PopUpd.spawn id st] }

/-- Updates::kill: queue a Kill mutation for the given agent. -/
def UpdatesBuf.killAgent (b : UpdatesBuf St Upd) (a : Agent St) : UpdatesBuf St Upd :=
  { b with pop_updates := b.pop_updates ++ [PopUpd.kill a.id a.state] }

/-- Updates::push: LPUSH each staged per-key update list, SADD the staged
population mutations to {pop}updates, SADD the staged ids to
{pop}to_update. The updates table and the to_update set are drained; the
pop_updates vector is only iterated (the Rust code maps over it without
draining), so it stays in the buffer. -/
def UpdatesBuf.push [DecidableEq St] [DecidableEq Upd]
    (b : UpdatesBuf St Upd) (s : Store St Upd Wo) :
    UpdatesBuf St Upd × Store St Upd Wo :=
  let s1 : Store St Upd Wo :=
    { s with updLists := b.updates.foldl (fun m p => kvLpush m p.1 p.2) s.updLists }
  let s2 : Store St Upd Wo :=
    if b.pop_updates.isEmpty then s1
    else { s1 with popUpdates := saddList s1.popUpdates b.pop_updates }
  let s3 : Store St Upd Wo :=
    if b.to_update.isEmpty then s2
    else { s2 with toUpdate := saddList s2.toUpdate b.to_update }
  ({ b with updates := [], to_update := [] }, s3)

/-- Population::set_agents: unconditional overwrite of each listed state. -/
def Population.set_agents [DecidableEq St]
    (s : Store St Upd Wo) (ups : List (Id × St)) : Store St Upd Wo :=
  { s with states := ups.foldl (fun m p => kvSet m p.1 p.2) s.states }

/-- Population::spawns: SADD the ids to the population set, persist the
states, then invoke on_spawns (recorded in the ghost log). -/
def Population.spawns [DecidableEq St]
    (s : Store St Upd Wo) (to_spawn : List (Id × St)) : Store St Upd Wo :=
  if to_spawn.isEmpty then s
  else
    let ids := to_spawn.map Prod.fst
    let s1 := { s with population := saddList s.population ids }
    let s2 := Population.set_agents s1 to_spawn
    { s2 with log := s2.log ++ to_spawn.map (fun p => PopUpd.spawn p.1 p.2) }

/-- Population::kills: DEL the state keys, SREM the ids from the population
set, then invoke on_deaths (recorded in the ghost log). -/
def Population.kills [DecidableEq St]
    (s : Store St Upd Wo) (to_kill : List (Id × St)) : Store St Upd Wo :=
  if to_kill.isEmpty then s
  else
    let ids := to_kill.map Prod.fst
    let s1 := { s with
                states := kvDelAll s.states ids,
                population := sremList s.population ids }
    { s1 with log := s1.log ++ to_kill.map (fun p => PopUpd.kill p.1 p.2) }

/-- Population::update: SMEMBERS the {pop}updates set, split the members
into kills and spawns, run the kills then the spawns. The Rust code never
deletes or trims the {pop}updates key, so the store field popUpdates is
left untouched. -/
def Population.update [DecidableEq St] (s : Store St Upd Wo) : Store St Upd Wo :=
  let updates := s.popUpdates
  let to_kill := updates.filterMap
    (fun u => match u with | PopUpd.kill id st => some (id, st) | _ => none)
  let to_spawn := updates.filterMap
    (fun u => match u with | PopUpd.spawn id st => some (id, st) | _ => none)
  Population.spawns (Population.kills s to_kill) to_spawn

/-- Population::get_agent: GET the state key for the id and decode it with
unwrap. A missing key yields a nil reply whose decode fails, so the unwrap
panics; the panic is modelled as Except.error. -/
def Population.get_agent (s : Store St Upd Wo) (id : Id) : Except Unit (Agent St) :=
  match kvGet s.states id with
  | some st => Except.ok (Agent.mk id st)
  | none => Except.error ()

/-- A call a user decide hook makes against its Updates buffer. -/
inductive BufCall (St Upd : Type) where
| queue (id : Id) (u : Upd)
| queueWorld (u : Upd)
| spawn (id : Id) (st : St)
| kill (id : Id) (st : St)
deriving DecidableEq, Repr

/-- Apply one buffer call. -/
def UpdatesBuf.applyCall (b : UpdatesBuf St Upd) : BufCall St Upd → UpdatesBuf St Upd
| BufCall.queue id u => b.queue id u
| BufCall.queueWorld u => b.queue_world u
| BufCall.spawn id st => b.spawnWith id st
| BufCall.kill id st => { b with pop_updates := b.pop_updates ++ [PopUpd.kill id st] }

/-- Apply a sequence of buffer calls in order. -/
def UpdatesBuf.applyCalls (b : UpdatesBuf St Upd) (cs : List (BufCall St Upd)) : UpdatesBuf St Upd :=
  cs.foldl UpdatesBuf.applyCall b

/-- The user-supplied Simulation capability (src/src/sim.rs), with each
hook represented by the sequence of buffer calls it makes: decide receives
the agent and the world, update folds the queued updates into a new state,
worldDecide queues world updates. on_spawns and on_deaths are the default
no-ops (their invocations are tracked in the ghost log). -/
structure SimFns (St Upd Wo : Type) where
  decide : Agent St → Wo → List (BufCall St Upd)
  update : St → List Upd → St
  worldDecide : Wo → List (BufCall St Upd)

/-- Worker::decide for the whole decide phase under the lockstep schedule:
the workers collectively SPOP every id out of {pop}to_decide, fetch each
agent (get_agents panics on a missing state), run the user decide hook
against a staging buffer, and push the buffer at the end of the phase. The
drained ids are processed in list order; decide is read-only on states, so
the result does not depend on how the ids are split across workers. -/
def Worker.decidePhase [DecidableEq St] [DecidableEq Upd]
    (sim : SimFns St Upd Wo) (s : Store St Upd Wo) :
    Except Unit (Store St Upd Wo) := do
  let ids := s.toDecide
  let s0 := { s with toDecide := ([] : List Id) }
  let agents ← ids.mapM (fun id => Population.get_agent s0 id)
  let buf := agents.foldl (fun b a => b.applyCalls (sim.decide a s0.world)) UpdatesBuf.new
  Except.ok (buf.push s0).2

/-- The manager block after the decide barrier: world_decide runs against a
fresh Updates buffer which is then pushed. -/
def Manager.worldDecidePush [DecidableEq St] [DecidableEq Upd]
    (sim : SimFns St Upd Wo) (s : Store St Upd Wo) : Store St Upd Wo :=
  ((UpdatesBuf.new.applyCalls (sim.worldDecide s.world)).push s).2

/-- Worker::update for the whole update phase under the lockstep schedule:
the workers collectively SPOP every id out of {pop}to_update; for each id
they fetch the agent state (panicking if missing), LRANGE the updates:<id>
list, skip the agent if the list is empty, otherwise DEL the list, compute
the new state, and collect the pair when the state changed; the collected
batch is written back with set_agents at the end of the phase. -/
def Worker.updatePhase [DecidableEq St] [DecidableEq Upd]
    (sim : SimFns St Upd Wo) (s : Store St Upd Wo) :
    Except Unit (Store St Upd Wo) := do
  let ids := s.toUpdate
  let s0 := { s with toUpdate := ([] : List Id) }
  let res ← ids.foldlM
    (fun (acc : Store St Upd Wo × List (Id × St)) id => do
      let st ← match kvGet acc.1.states id with
               | some st => Except.ok st
               | none => Except.error ()
      let us := (kvGet acc.1.updLists (UKey.agent id)).getD []
      if us.isEmpty then Except.ok acc
      else
        let s1 := { acc.1 with updLists := kvDelAll acc.1.updLists [UKey.agent id] }
        let new := sim.update st us
        if new = st then Except.ok (s1, acc.2)
        else Except.ok (s1, acc.2 ++ [(id, new)]))
    (s0, ([] : List (Id × St)))
  Except.ok (Population.set_agents res.1 res.2)

/-- One step of Manager::run under the lockstep schedule (each published
command is fully processed and acknowledged before the manager proceeds):
SUNIONSTORE copies the population set onto {pop}to_decide, the decide
phase runs, the manager runs world_decide and pushes, the update phase
runs, the manager runs Population::update, and the sync phase runs.
Reporters are not modelled in this step function (none are registered in
the runs it is used for). The sync phase drains the spawn:<uuid> and
kill:<uuid> lists, but nothing in src/src/compute.rs ever writes those
keys, so syncing never changes any state the model tracks. -/
def Manager.step [DecidableEq St] [DecidableEq Upd]
    (sim : SimFns St Upd Wo) (s : Store St Upd Wo) :
    Except Unit (Store St Upd Wo) := do
  let s1 := { s with toDecide := s.population }
  let s2 ← Worker.decidePhase sim s1
  let s3 := Manager.worldDecidePush sim s2
  let s4 ← Worker.updatePhase sim s3
  Except.ok (Population.update s4)

/-- Manager::run for n steps from a given store. -/
def Manager.runSteps [DecidableEq St] [DecidableEq Upd]
    (sim : SimFns St Upd Wo) : Nat → Store St Upd Wo → Except Unit (Store St Upd Wo)
| 0, s => Except.ok s
| n + 1, s => do Manager.runSteps sim n (← Manager.step sim s)

/-- Scenario S1 update payload: Add(usize). -/
inductive S1Upd where
| add (n : Nat)
deriving DecidableEq, Repr

/-- Scenario S1 simulation: State is the counter h, decide queues Add(10)
for self, update folds each Add(n) as h + n, no world logic. -/
def simS1 : SimFns Nat S1Upd Unit where
  decide := fun a _ => [BufCall.queue a.id (S1Upd.add 10)]
  update := fun st us => us.foldl (fun h u => match u with | S1Upd.add n => h + n) st
  worldDecide := fun _ => []

/-- Scenario S1 initial store: Manager::new resets the store and sets the
world; Manager::spawn queues Spawn(id, h = 0) through a fresh Updates
buffer and pushes it. The random uuid is modelled as id 0. -/
def s1Init : Store Nat S1Upd Unit :=
  (((UpdatesBuf.new : UpdatesBuf Nat S1Upd).spawnWith 0 0).push (Store.init ())).2

/-- The stored state of agent 0 after running scenario S1, or none if the
run panicked. -/
def s1FinalH : Option Nat :=
  match Manager.runSteps simS1 10 s1Init with
  | Except.ok s => kvGet s.states 0
  | Except.error _ => none

lemma mem_saddOne_of_mem [DecidableEq a] {s : List a} {x y : a}
    (hx : x ∈ s) : x ∈ saddOne s y := by
  by_cases h : y ∈ s
  · simp [saddOne, h]
    exact hx
  · simp only [saddOne, h, if_neg, ite_false]
    exact List.mem_append_left _ hx

lemma mem_saddOne_self [DecidableEq a] (s : List a) (x : a) : x ∈ saddOne s x := by
  by_cases h : x ∈ s
  · simp only [saddOne, if_pos h]
    exact h
  · simp only [saddOne, h, ite_false]
    exact List.mem_append_right _ (List.mem_singleton.mpr rfl)

lemma saddOne_eq_of_mem [DecidableEq a] {s : List a} {x : a}
    (hx : x ∈ s) : saddOne s x = s := by
  simp [saddOne, hx]

lemma mem_saddList_of_mem_left [DecidableEq a] {l s : List a} {x : a}
    (hx : x ∈ s) : x ∈ saddList s l := by
  induction l generalizing s with
  | nil => exact hx
  | cons y t ih => exact ih (mem_saddOne_of_mem hx)

lemma mem_saddList_of_mem [DecidableEq a] {l s : List a} {x : a}
    (hx : x ∈ l) : x ∈ saddList s l := by
  induction l generalizing s with
  | nil => cases hx
  | cons y t ih =>
    rcases List.mem_cons.mp hx with h | h
    · subst h
      show x ∈ saddList (saddOne s x) t
      exact mem_saddList_of_mem_left (mem_saddOne_self s x)
    · exact ih h

lemma saddList_nil [DecidableEq a] (s : List a) : saddList s [] = s := rfl

lemma saddList_eq_of_forall_mem [DecidableEq a] {l s : List a}
    (h : ∀ x ∈ l, x ∈ s) : saddList s l = s := by
  induction l generalizing s with
  | nil => rfl
  | cons y t ih =>
    have hy : y ∈ s := h y (List.mem_cons_self y t)
    show saddList (saddOne s y) t = s
    rw [saddOne_eq_of_mem hy]
    exact ih (fun x hx => h x (List.mem_cons_of_mem y hx))

lemma saddList_idem [DecidableEq a] (s l : List a) :
    saddList (saddList s l) l = saddList s l :=
  saddList_eq_of_forall_mem (fun _ hx => mem_saddList_of_mem hx)

/-- The concrete store used against the C1 claim: one pending Spawn. -/
def c1Store : Store Nat S1Upd Unit :=
  { Store.init () with popUpdates := [PopUpd.spawn 1 0] }

/-- The concrete store used against the C6 claim: agent 0 has state 5, id
7 is absent. -/
def c6Store : Store Nat S1Upd Unit :=
  { Store.init () with population := [0], states := [(0, 5)] }

/-- The concrete buffer used against the C7 claim: one staged Spawn. -/
def c7Buf : UpdatesBuf Nat S1Upd := (UpdatesBuf.new : UpdatesBuf Nat S1Upd).spawnWith 1 0

/-- C1: the claim states that Population::update drains the
updates:population set, leaving it empty after the call so that a mutation
is applied exactly once and never re-applied. The code never deletes the
{pop}updates key: after update() the pending set still holds the mutation,
and a second update() applies the same Spawn again (the ghost log records
two on_spawns applications of the same mutation). -/
theorem c1_population_update_does_not_drain :
    (Population.update c1Store).popUpdates = [PopUpd.spawn 1 0] ∧
    (Population.update (Population.update c1Store)).log
      = [PopUpd.spawn 1 0, PopUpd.spawn 1 0] := by
  constructor <;> rfl

/-- C3: scenario S1 (State h, decide queues Add(10) for self, update adds
it, one agent spawned with h = 0 before the run, 10 steps). The claim
expects final h = 100; running the embedded code yields h = 0, because the
initial Spawn stays in the never-drained {pop}updates set and is re-applied
at the end of every step, resetting h to 0 after each update phase. -/
theorem c3_s1_final_h_zero :
    s1FinalH = some 0 ∧ s1FinalH ≠ some 100 := by
  constructor
  · rfl
  · intro h
    simp [show s1FinalH = some 0 from rfl] at h

/-- C6: the claim states that get_agent on an id outside the population
returns None without error. In the code get_agent issues a GET and unwraps
the decode of the reply; a missing id yields a nil reply whose decode
fails, so the call panics (modelled as Except.error) and no code path
returns None. For an id in the population it does return the latest
committed state. -/
theorem c6_get_agent_missing_panics :
    Population.get_agent c6Store 7 = Except.error () ∧
    (7 : Id) ∉ c6Store.population ∧
    Population.get_agent c6Store 0 = Except.ok (Agent.mk 0 5) := by
  refine ⟨rfl, ?_, rfl⟩
  decide

/-- C7 counterexample: the claim states that after push all local staging
buffers, including the staged population mutations, are empty. Pushing a
buffer holding one staged Spawn leaves pop_updates non-empty: the code
drains the updates map and the to_update set but only iterates over
pop_updates. -/
theorem c7_push_buffers_not_emptied :
    ((c7Buf.push (Store.init () : Store Nat S1Upd Unit)).1).pop_updates ≠ [] := by
  intro h
  simp [show ((c7Buf.push (Store.init () : Store Nat S1Upd Unit)).1).pop_updates
      = [PopUpd.spawn 1 0] from rfl] at h

/-- C7 amended: Updates::push writes every staged item to its store key
(LPUSH per target key, SADD of the staged population mutations to
updates:population, SADD of the staged ids to to_update) and drains the
updates map and the to_update set, but the staged population mutations
remain in the buffer; a second push with no intervening queue/spawn/kill
calls re-adds the same mutations to the updates:population set, which
leaves the store unchanged (set add is idempotent), and writes nothing
else. -/
theorem c7_push_amended [DecidableEq St] [DecidableEq Upd]
    (b : UpdatesBuf St Upd) (s : Store St Upd Wo) :
    ((b.push s).1.updates = [] ∧ (b.push s).1.to_update = [] ∧
     (b.push s).1.pop_updates = b.pop_updates) ∧
    ((b.push s).2.updLists = b.updates.foldl (fun m p => kvLpush m p.1 p.2) s.updLists ∧
     (b.push s).2.popUpdates = saddList s.popUpdates b.pop_updates ∧
     (b.push s).2.toUpdate = saddList s.toUpdate b.to_update ∧
     (b.push s).2.population = s.population ∧
     (b.push s).2.states = s.states ∧
     (b.push s).2.world = s.world) ∧
    (b.push s).1.push (b.push s).2 = b.push s := by
  unfold UpdatesBuf.push
  by_cases hp : b.pop_updates.isEmpty <;> by_cases ht : b.to_update.isEmpty <;>
    simp only [List.isEmpty_iff] at hp ht <;>
    simp [hp, ht, saddList_idem, saddList_nil]

/-
Manager::run as a trace of the coordination operations the manager
performs, in program order (src/src/compute.rs, the while loop of run).
-/

/-- One coordination operation of the manager loop. -/
inductive MOp where
| reporters
| toDecideRefill
| publish (cmd : String)
| setPhase (p : String)
| waitFinished
| clearFinished
| worldPush
| popUpdate
deriving DecidableEq, Repr

/-- The operations of one iteration of the while loop in Manager::run, in
program order: run due reporters, SUNIONSTORE the population onto
to_decide, publish decide / set phase / barrier / DEL finished, run
world_decide and push, publish update / set phase / barrier / DEL
finished, run Population::update, publish sync / set phase / barrier. No
DEL of finished follows the sync barrier. -/
def stepOps : List MOp :=
  [MOp.reporters, MOp.toDecideRefill,
   MOp.publish "decide", MOp.setPhase "decide", MOp.waitFinished, MOp.clearFinished,
   MOp.worldPush,
   MOp.publish "update", MOp.setPhase "update", MOp.waitFinished, MOp.clearFinished,
   MOp.popUpdate,
   MOp.publish "sync", MOp.setPhase "sync", MOp.waitFinished]

/-- Manager::run for n steps: n iterations of the loop followed by the
terminate publish. -/
def runOps : Nat → List MOp
| 0 => [MOp.publish "terminate"]
| n + 1 => stepOps ++ runOps n

lemma stepOps_length : stepOps.length = 15 := rfl

lemma runOps_get?_of_lt {k i : Nat} (n : Nat) (hk : k < n) (hi : i < 15) :
    (runOps n).get? (15 * k + i) = stepOps.get? i := by
  induction n generalizing k with
  | zero => cases hk
  | succ n ih =>
    cases k with
    | zero =>
      have hlt : 15 * 0 + i < stepOps.length := by
        rw [stepOps_length]
        omega
      rw [runOps, List.get?_append hlt]
      simp
    | succ k =>
      have hk2 : k < n := Nat.lt_of_succ_lt_succ hk
      have hge : stepOps.length ≤ 15 * (k + 1) + i := by
        rw [stepOps_length]
        omega
      rw [runOps, List.get?_append_right hge]
      have harith : 15 * (k + 1) + i - stepOps.length = 15 * k + i := by
        rw [stepOps_length]
        omega
      rw [harith]
      exact ih hk2

/-- C2 counterexample: the claim states that in every step the manager
publishes sync first and only afterwards the first decide of the step,
with reporters between the sync barrier and the decide command. In the
trace of a one-step run both commands occur, and the first decide publish
comes strictly before the first sync publish, so sync does not precede
the first decide of the step. -/
theorem c2_sync_does_not_precede_decide :
    MOp.publish "decide" ∈ runOps 1 ∧ MOp.publish "sync" ∈ runOps 1 ∧
    (runOps 1).findIdx (fun x => x == MOp.publish "decide")
      < (runOps 1).findIdx (fun x => x == MOp.publish "sync") := by
  refine ⟨?_, ?_, ?_⟩ <;> decide

/-- C2 amended: in every step k of an n-step Manager::run the order of
phase work is: the due reporters run first, then the decide command is
published, then the update command, then Population::update applies the
pending population mutations, and the sync command is published last, so
sync follows the decide and update of its own step and the reporters run
at the top of the step before decide, not after a sync barrier. -/
theorem c2_step_order (n k : Nat) (hk : k < n) :
    (runOps n).get? (15 * k) = some MOp.reporters ∧
    (runOps n).get? (15 * k + 2) = some (MOp.publish "decide") ∧
    (runOps n).get? (15 * k + 7) = some (MOp.publish "update") ∧
    (runOps n).get? (15 * k + 11) = some MOp.popUpdate ∧
    (runOps n).get? (15 * k + 12) = some (MOp.publish "sync") := by
  refine ⟨?_, ?_, ?_, ?_, ?_⟩
  · have h := runOps_get?_of_lt n hk (show 0 < 15 by omega)
    simpa using h
  · exact runOps_get?_of_lt n hk (by omega)
  · exact runOps_get?_of_lt n hk (by omega)
  · exact runOps_get?_of_lt n hk (by omega)
  · exact runOps_get?_of_lt n hk (by omega)

/-- C2 witness: the step layout at the first step of a one-step run. -/
theorem c2_step_order_witness :
    (runOps 1).get? 0 = some MOp.reporters ∧
    (runOps 1).get? 2 = some (MOp.publish "decide") ∧
    (runOps 1).get? 7 = some (MOp.publish "update") ∧
    (runOps 1).get? 11 = some MOp.popUpdate ∧
    (runOps 1).get? 12 = some (MOp.publish "sync") := by
  have h := c2_step_order 1 0 (by omega)
  simpa using h

/-- The finished set as the manager trace executes, given the set W of
registered worker uuids. A completed barrier wait means the cardinality of
finished reached the worker count; since only registered workers SADD
their uuid, at that point finished equals W. DEL finished empties it. All
other operations leave it unchanged. The run starts after Manager::reset,
which deleted the finished key. -/
def finStep (W : Finset Nat) (f : Finset Nat) : MOp → Finset Nat
| MOp.waitFinished => W
| MOp.clearFinished => ∅
| _ => f

/-- The finished set after a prefix of the manager trace. -/
def finishedAfter (W : Finset Nat) (ops : List MOp) : Finset Nat :=
  ops.foldl (finStep W) ∅

/-- C4: the claim states that the barrier wait completes exactly when the
finished set reaches the worker count and that the manager clears finished
after every barrier, the sync barrier included, so finished is empty at
every phase publish. The code issues no DEL of finished after the sync
barrier: in a two-step run, at the decide publish of the second step
(trace index 17) the finished set still equals the full worker set W,
while at the decide publish of the first step (trace index 2) it is
empty. -/
theorem c4_finished_not_cleared_after_sync (W : Finset Nat) :
    (runOps 2).get? 17 = some (MOp.publish "decide") ∧
    finishedAfter W ((runOps 2).take 17) = W ∧
    finishedAfter W ((runOps 2).take 2) = ∅ := by
  refine ⟨rfl, rfl, rfl⟩

/-
The SPOP-based work pulling of Worker::decide and Worker::update. Both
phases loop on SPOP <set> THROUGHPUT against the shared {pop}to_decide or
{pop}to_update set. SPOP atomically removes the returned members, so any
interleaving of SPOP calls across the worker pool is a sequence of
transitions that each take a subset of the current set and leave its
complement.
-/

/-- SpopTrace s pops holds when pops is the sequence of member batches
returned by an interleaving of SPOP calls (by any workers, in any order)
starting from the set s. -/
inductive SpopTrace : Finset Nat → List (Finset Nat) → Prop
| nil (s : Finset Nat) : SpopTrace s []
| cons (s t : Finset Nat) (pops : List (Finset Nat)) :
    t ⊆ s → SpopTrace (s \ t) pops → SpopTrace s (t :: pops)

lemma SpopTrace.batch_subset {s : Finset Nat} {pops : List (Finset Nat)}
    (h : SpopTrace s pops) : ∀ t ∈ pops, t ⊆ s := by
  induction h with
  | nil s => intro t ht; cases ht
  | cons s t pops hsub _ ih =>
    intro u hu
    rcases List.mem_cons.mp hu with h | h
    · subst h; exact hsub
    · exact (ih u h).trans (Finset.sdiff_subset)

/-- C5: each phase of a step drains its shared set through atomic SPOP
calls, so across any interleaving of workers every agent id lands in at
most one returned batch: the number of batches containing a given id is at
most one, hence Simulation::decide runs at most once per agent in the
decide phase and Simulation::update at most once per agent in the update
phase of a step. -/
theorem c5_decide_update_at_most_once (s : Finset Nat) (pops : List (Finset Nat))
    (h : SpopTrace s pops) (id : Nat) :
    (pops.countP (fun t => decide (id ∈ t))) ≤ 1 := by
  induction h with
  | nil s => simp
  | cons s t pops hsub htrace ih =>
    rw [List.countP_cons]
    by_cases hid : id ∈ t
    · have hzero : pops.countP (fun u => decide (id ∈ u)) = 0 := by
        rw [List.countP_eq_zero]
        intro u hu
        have husub := htrace.batch_subset u hu
        have : id ∉ u := fun hin => (Finset.mem_sdiff.mp (husub hin)).2 hid
        simpa using this
      simp [hzero, hid]
    · simp [hid]
      exact ih

/-- C5 witness: a concrete two-batch trace in which id 1 is popped once. -/
theorem c5_decide_update_at_most_once_witness :
    ([{1}, {2}] : List (Finset Nat)).countP (fun t => decide (1 ∈ t)) ≤ 1 := by
  refine c5_decide_update_at_most_once {1, 2} [{1}, {2}] ?_ 1
  refine SpopTrace.cons _ _ _ (by decide) ?_
  refine SpopTrace.cons _ _ _ (by decide) ?_
  exact SpopTrace.nil _

/-
WHasher from src/src/hash.rs: maps the 64-bit hash of an id to a worker
index. The id is first hashed with the standard library DefaultHasher (a
fixed-key SipHash living outside this repository); the model takes that
64-bit hash value h as input. The floating point quotients of the Rust
code are modelled with rational arithmetic; the range property proved
below holds for every outcome of the comparisons, so it is insensitive to
the difference between f64 and rational rounding.
-/

/-- WHasher::hash: with w = n_workers and p = h / u64::MAX, return the
first j in 0..w with j / w <= p < (j + 1) / w, and w - 1 when the scan
finds none. -/
def WHasher.hash (n_workers : Nat) (h : Nat) : Nat :=
  let w : ℚ := n_workers
  let p : ℚ := (h : ℚ) / ((2 ^ 64 - 1 : Nat) : ℚ)
  match (List.range n_workers).find?
      (fun (j : Nat) => decide ((j : ℚ) / w ≤ p) && decide (p < ((j : ℚ) + 1) / w)) with
  | some j => j
  | none => n_workers - 1

lemma range_find_lt (n : Nat) (hn : 1 ≤ n) (p : Nat → Bool) :
    (match (List.range n).find? p with
     | some j => j
     | none => n - 1) < n := by
  cases hf : (List.range n).find? p with
  | none =>
    simp only [hf]
    show n - 1 < n
    omega
  | some j =>
    simp only [hf]
    exact List.mem_range.mp (List.mem_of_find?_eq_some hf)

/-- C9: for every worker count N with 1 <= N and every id (represented by
its 64-bit hash value), WHasher::hash returns an index in the range
0..N, and the mapping is a deterministic function of the id hash and N. -/
theorem c9_whasher_hash_range (n_workers h : Nat) (hn : 1 ≤ n_workers) :
    WHasher.hash n_workers h < n_workers ∧
    ∀ h2, h2 = h → WHasher.hash n_workers h2 = WHasher.hash n_workers h := by
  constructor
  · exact range_find_lt n_workers hn _
  · intro h2 e
    rw [e]

/-- C9 witness: four workers, hash value 0. -/
theorem c9_whasher_hash_range_witness :
    WHasher.hash 4 0 < 4 ∧
    ∀ h2, h2 = 0 → WHasher.hash 4 h2 = WHasher.hash 4 0 :=
  c9_whasher_hash_range 4 0 (by omega)

/-
Reporters (src/src/compute.rs): Manager.reporters is a HashMap from
interval to callback; register_reporter inserts with the interval as the
key, and each loop iteration runs every reporter whose interval satisfies
steps % interval == 0. Callbacks are represented by opaque numeric tokens;
a HashMap with distinct keys is modelled as an association list and insert
as replace-or-append.
-/

/-- Manager::register_reporter: HashMap::insert keyed by the interval. -/
def Manager.register_reporter (rs : List (Nat × Nat)) (n_steps : Nat) (f : Nat) :
    List (Nat × Nat) :=
  kvSet rs n_steps f

/-- The reporter dispatch at the top of a step: every reporter with
steps % interval == 0 is invoked. In Rust the remainder panics when the
interval is 0, so a registry holding a 0 interval makes the dispatch
panic (none); otherwise the invoked callbacks are returned. -/
def Manager.dispatchReporters (rs : List (Nat × Nat)) (steps : Nat) : Option (List Nat) :=
  if rs.any (fun p => p.1 == 0) then none
  else some ((rs.filter (fun p => steps % p.1 == 0)).map (fun p => p.2))

/-- The callback f fires at step steps under registry rs. -/
def Manager.firesAt (rs : List (Nat × Nat)) (steps : Nat) (f : Nat) : Prop :=
  match Manager.dispatchReporters rs steps with
  | some l => f ∈ l
  | none => False

lemma kvGet_kvSet [DecidableEq k] (m : List (k × v)) (key : k) (val : v) :
    kvGet (kvSet m key val) key = some val := by
  induction m with
  | nil => simp [kvSet, kvGet]
  | cons p rest ih =>
    by_cases h : p.1 = key
    · simp [kvSet, kvGet, h]
    · simp [kvSet, kvGet, h, ih]

lemma mem_keys_kvSet [DecidableEq k] {m : List (k × v)} {key x : k} {val : v}
    (hx : x ∈ (kvSet m key val).map Prod.fst) :
    x ∈ m.map Prod.fst ∨ x = key := by
  induction m with
  | nil =>
    simp [kvSet] at hx
    exact Or.inr hx
  | cons p rest ih =>
    by_cases h : p.1 = key
    · simp [kvSet, h] at hx
      rcases hx with h1 | h1
      · exact Or.inr h1
      · exact Or.inl (by simp [h1])
    · simp [kvSet, h] at hx
      rcases hx with h1 | h1
      · exact Or.inl (by simp [h1])
      · obtain ⟨y, hy⟩ := h1
        rcases ih (List.mem_map.mpr ⟨(x, y), hy, rfl⟩) with h2 | h2
        · exact Or.inl (List.mem_cons_of_mem _ h2)
        · exact Or.inr h2

lemma kvSet_keys_nodup [DecidableEq k] {m : List (k × v)} (key : k) (val : v)
    (h : (m.map Prod.fst).Nodup) : ((kvSet m key val).map Prod.fst).Nodup := by
  induction m with
  | nil => simp [kvSet]
  | cons p rest ih =>
    rw [List.map_cons, List.nodup_cons] at h
    by_cases he : p.1 = key
    · simp only [kvSet, he, ite_true, List.map_cons, List.nodup_cons]
      exact ⟨by rw [← he]; exact h.1, h.2⟩
    · simp only [kvSet, he, ite_false, List.map_cons, List.nodup_cons]
      refine ⟨?_, ih h.2⟩
      intro hmem
      rcases mem_keys_kvSet hmem with h1 | h1
      · exact h.1 h1
      · exact he h1

/-- C10 counterexample: the claim states that a reporter whose interval
divides the current step index, step 0 included, fires that step. A
reporter registered with interval 0 has an interval dividing step 0, yet
the dispatch panics on steps % 0 (modelled as none) and the reporter does
not fire. -/
theorem c10_zero_interval_panics :
    (0 : Nat) ∣ 0 ∧
    Manager.dispatchReporters [(0, 5)] 0 = none ∧
    ¬ Manager.firesAt [(0, 5)] 0 5 :=
  ⟨dvd_rfl, rfl, fun h => h⟩

/-- C10 amended: reporters are keyed solely by their interval, so a second
register_reporter with the same interval replaces the first and at most
one reporter exists per interval (key distinctness is preserved); and for
a registry whose intervals are all at least 1, every reporter whose
interval divides the current step index, step 0 included, fires that
step. An interval of 0 instead panics the dispatch (see the
counterexample). -/
theorem c10_register_reporter_amended (rs : List (Nat × Nat)) (n f g m r steps : Nat)
    (h1 : (rs.map Prod.fst).Nodup) (h2 : ∀ p ∈ rs, 1 ≤ p.1)
    (h3 : (m, r) ∈ rs) (h4 : m ∣ steps) :
    kvGet (Manager.register_reporter (Manager.register_reporter rs n f) n g) n = some g ∧
    ((Manager.register_reporter rs n f).map Prod.fst).Nodup ∧
    Manager.firesAt rs steps r := by
  refine ⟨kvGet_kvSet _ _ _, kvSet_keys_nodup _ _ h1, ?_⟩
  have hz : rs.any (fun p => p.1 == 0) = false := by
    rw [List.any_eq_false]
    intro p hp
    have := h2 p hp
    simp only [beq_iff_eq]
    omega
  unfold Manager.firesAt Manager.dispatchReporters
  rw [hz]
  simp only [Bool.false_eq_true, if_false]
  obtain ⟨c, rfl⟩ := h4
  refine List.mem_map.mpr ⟨(m, r), List.mem_filter.mpr ⟨h3, ?_⟩, rfl⟩
  simp [Nat.mul_mod_right]

/-- C10 witness: interval 2, callback 7, step 0; a re-registration at
interval 3 keeps only the latest callback. -/
theorem c10_register_reporter_amended_witness :
    kvGet (Manager.register_reporter (Manager.register_reporter [(2, 7)] 3 1) 3 2) 3
      = some 2 ∧
    ((Manager.register_reporter [(2, 7)] 3 1).map Prod.fst).Nodup ∧
    Manager.firesAt [(2, 7)] 0 7 :=
  c10_register_reporter_amended [(2, 7)] 3 1 2 2 7 0 (by decide) (by decide)
    (by decide) (by decide)

/-
The byte codec. The encode and decode entry points in src/src/ser.rs and
src/src/compute.rs are thin wrappers over the external rmp_serialize and
rustc_serialize crates, which implement the msgpack wire format; the crate
bodies are not part of this repository. Modelled from the spec: a
deterministic, self-delimiting msgpack codec for the in-scope declared
value types of the embedding (agent state with one usize field, a usize
world, the one-variant Add update enum, and the two-variant
PopulationUpdate enum). Unsigned integers use the positive-fixint, uint8,
uint16, uint32 and uint64 msgpack size classes with big-endian payload
bytes; a struct is a fixarray of its fields and an enum value a fixarray
of the variant index and the fixarray of its arguments. Bytes are
naturals below 256.
-/

/-- Msgpack encoding of an unsigned integer (usize / u64 range). -/
def encUint (n : Nat) : List Nat :=
  if n < 0x80 then [n]
  else if n < 0x100 then [0xcc, n]
  else if n < 0x10000 then [0xcd, n / 0x100, n % 0x100]
  else if n < 0x100000000 then
    [0xce, n / 0x1000000, n / 0x10000 % 0x100, n / 0x100 % 0x100, n % 0x100]
  else
    [0xcf, n / 0x100000000000000, n / 0x1000000000000 % 0x100, n / 0x10000000000 % 0x100,
     n / 0x100000000 % 0x100, n / 0x1000000 % 0x100, n / 0x10000 % 0x100,
     n / 0x100 % 0x100, n % 0x100]

/-- Msgpack decoding of an unsigned integer, returning the remaining
bytes. -/
def decUint : List Nat → Option (Nat × List Nat)
| [] => none
| b :: r =>
  if b < 0x80 then some (b, r)
  else if b = 0xcc then
    match r with
    | b0 :: r2 => some (b0, r2)
    | _ => none
  else if b = 0xcd then
    match r with
    | b1 :: b0 :: r2 => some (b1 * 0x100 + b0, r2)
    | _ => none
  else if b = 0xce then
    match r with
    | b3 :: b2 :: b1 :: b0 :: r2 =>
      some (b3 * 0x1000000 + b2 * 0x10000 + b1 * 0x100 + b0, r2)
    | _ => none
  else if b = 0xcf then
    match r with
    | b7 :: b6 :: b5 :: b4 :: b3 :: b2 :: b1 :: b0 :: r2 =>
      some (b7 * 0x100000000000000 + b6 * 0x1000000000000 + b5 * 0x10000000000 +
            b4 * 0x100000000 + b3 * 0x1000000 + b2 * 0x10000 + b1 * 0x100 + b0, r2)
    | _ => none
  else none

lemma decUint_encUint (n : Nat) (_hn : n < 2 ^ 64) (rest : List Nat) :
    decUint (encUint n ++ rest) = some (n, rest) := by
  unfold encUint
  by_cases h1 : n < 0x80
  · simp [h1, decUint]
  · by_cases h2 : n < 0x100
    · norm_num [h1, h2, decUint]
    · by_cases h3 : n < 0x10000
      · norm_num [h1, h2, h3, decUint]
        omega
      · by_cases h4 : n < 0x100000000
        · norm_num [h1, h2, h3, h4, decUint]
          omega
        · norm_num [h1, h2, h3, h4, decUint]
          omega

/-- Msgpack encoding of the agent state: a struct with one usize field,
a fixarray of one element. -/
def encState (st : Nat) : List Nat := 0x91 :: encUint st

/-- Msgpack encoding of the world state: a bare usize. -/
def encWorld (w : Nat) : List Nat := encUint w

/-- Msgpack encoding of the update enum Add(usize): a fixarray of the
variant index and the fixarray of arguments. -/
def encUpd : S1Upd → List Nat
| S1Upd.add n => 0x92 :: (encUint 0 ++ (0x91 :: encUint n))

/-- Msgpack encoding of PopulationUpdate: Spawn is variant 0 and Kill
variant 1, each carrying the id and the encoded state. -/
def encPop : PopUpd Nat → List Nat
| PopUpd.spawn id st => 0x92 :: (encUint 0 ++ (0x92 :: (encUint id ++ encState st)))
| PopUpd.kill id st => 0x92 :: (encUint 1 ++ (0x92 :: (encUint id ++ encState st)))

/-- Msgpack decoding of the agent state. -/
def decState : List Nat → Option (Nat × List Nat)
| [] => none
| b :: r => if b = 0x91 then decUint r else none

/-- Msgpack decoding of the world state. -/
def decWorld (l : List Nat) : Option (Nat × List Nat) := decUint l

/-- Msgpack decoding of the update enum. -/
def decUpd : List Nat → Option (S1Upd × List Nat)
| [] => none
| b :: r =>
  if b = 0x92 then
    match decUint r with
    | some (v, r2) =>
      if v = 0 then
        match r2 with
        | b2 :: r3 =>
          if b2 = 0x91 then
            match decUint r3 with
            | some (n, r4) => some (S1Upd.add n, r4)
            | none => none
          else none
        | [] => none
      else none
    | none => none
  else none

/-- Msgpack decoding of PopulationUpdate. -/
def decPop : List Nat → Option (PopUpd Nat × List Nat)
| [] => none
| b :: r =>
  if b = 0x92 then
    match decUint r with
    | some (v, r2) =>
      if v = 0 ∨ v = 1 then
        match r2 with
        | b2 :: r3 =>
          if b2 = 0x92 then
            match decUint r3 with
            | some (id, r4) =>
              match decState r4 with
              | some (st, r5) =>
                some (if v = 0 then PopUpd.spawn id st else PopUpd.kill id st, r5)
              | none => none
            | none => none
          else none
        | [] => none
      else none
    | none => none
  else none

lemma decState_encState (st : Nat) (h : st < 2 ^ 64) (rest : List Nat) :
    decState (encState st ++ rest) = some (st, rest) := by
  simp [encState, decState, decUint_encUint st h rest]

lemma decUpd_encUpd (u : S1Upd) (h : ∀ n, u = S1Upd.add n → n < 2 ^ 64) (rest : List Nat) :
    decUpd (encUpd u ++ rest) = some (u, rest) := by
  obtain ⟨n⟩ := u
  have hn := h n rfl
  simp [encUpd, decUpd, decUint_encUint 0 (by norm_num), decUint_encUint n hn rest]

lemma decPop_encPop (id st : Nat) (hid : id < 2 ^ 64) (hst : st < 2 ^ 64) (rest : List Nat) :
    decPop (encPop (PopUpd.spawn id st) ++ rest) = some (PopUpd.spawn id st, rest) ∧
    decPop (encPop (PopUpd.kill id st) ++ rest) = some (PopUpd.kill id st, rest) := by
  constructor <;>
    simp [encPop, decPop, decUint_encUint 0 (by norm_num), decUint_encUint 1 (by norm_num),
          decUint_encUint id hid, decState_encState st hst]

/-- The in-scope declared value types, packaged as one sum so that a
single round-trip statement quantifies over every value of every type. -/
inductive MPValue where
| ofState (st : Nat)
| ofWorld (w : Nat)
| ofUpd (u : S1Upd)
| ofPop (p : PopUpd Nat)
deriving DecidableEq, Repr

/-- The encoder for each in-scope value. -/
def encodeVal : MPValue → List Nat
| MPValue.ofState st => encState st
| MPValue.ofWorld w => encWorld w
| MPValue.ofUpd u => encUpd u
| MPValue.ofPop p => encPop p

/-- The typed decoder: Rust decode::<R> decodes against the expected type,
so decoding dispatches on which type the value belongs to. -/
def decodeVal : MPValue → List Nat → Option (MPValue × List Nat)
| MPValue.ofState _, l => (decState l).map (fun q => (MPValue.ofState q.1, q.2))
| MPValue.ofWorld _, l => (decWorld l).map (fun q => (MPValue.ofWorld q.1, q.2))
| MPValue.ofUpd _, l => (decUpd l).map (fun q => (MPValue.ofUpd q.1, q.2))
| MPValue.ofPop _, l => (decPop l).map (fun q => (MPValue.ofPop q.1, q.2))

/-- A value is in range when each numeric component fits in usize / u64,
as every value produced by the Rust code does. -/
def MPValue.wf : MPValue → Prop
| MPValue.ofState st => st < 2 ^ 64
| MPValue.ofWorld w => w < 2 ^ 64
| MPValue.ofUpd (S1Upd.add n) => n < 2 ^ 64
| MPValue.ofPop (PopUpd.spawn id st) => id < 2 ^ 64 ∧ st < 2 ^ 64
| MPValue.ofPop (PopUpd.kill id st) => id < 2 ^ 64 ∧ st < 2 ^ 64

/-- C8: for every value of every in-scope declared type (agent state,
world state, update, population mutation) whose numeric components fit in
usize / u64 (as every value produced by the code does), decoding the
encoding returns the original value with no bytes left over. -/
theorem c8_codec_roundtrip (v : MPValue) (h : MPValue.wf v) :
    decodeVal v (encodeVal v) = some (v, []) := by
  cases v with
  | ofState st =>
    have e := decState_encState st h []
    rw [List.append_nil] at e
    simp [encodeVal, decodeVal, e]
  | ofWorld w =>
    have e := decUint_encUint w h []
    rw [List.append_nil] at e
    simp [encodeVal, decodeVal, encWorld, decWorld, e]
  | ofUpd u =>
    obtain ⟨n⟩ := u
    have e := decUpd_encUpd (S1Upd.add n) (fun m hm => by cases hm; exact h) []
    rw [List.append_nil] at e
    simp [encodeVal, decodeVal, e]
  | ofPop p =>
    cases p with
    | spawn id st =>
      have e := (decPop_encPop id st h.1 h.2 []).1
      rw [List.append_nil] at e
      simp [encodeVal, decodeVal, e]
    | kill id st =>
      have e := (decPop_encPop id st h.1 h.2 []).2
      rw [List.append_nil] at e
      simp [encodeVal, decodeVal, e]

/-- C8 witness: a concrete Spawn mutation round-trips. -/
theorem c8_codec_roundtrip_witness :
    MPValue.wf (MPValue.ofPop (PopUpd.spawn 3 200)) ∧
    decodeVal (MPValue.ofPop (PopUpd.spawn 3 200))
        (encodeVal (MPValue.ofPop (PopUpd.spawn 3 200)))
      = some (MPValue.ofPop (PopUpd.spawn 3 200), []) :=
  ⟨⟨by decide, by decide⟩,
   c8_codec_roundtrip (MPValue.ofPop (PopUpd.spawn 3 200)) ⟨by decide, by decide⟩⟩

end Djinn








